import Mathlib

set_option maxRecDepth 100000

/-!
Shallow embedding of `lib/debian/arfile.py` (classes `ArMember` and `ArFile`),
the ar-archive codec of this repository, together with theorems settling the
frozen claims about it.

Modelling conventions:
- Python `bytes` values are `List Nat` (one Nat per byte).
- Python machine-independent ints are Lean `Int` (Python ints are unbounded).
- The shared underlying file object is `FpState` (its byte content, the
  current position and the closed flag).  Its `read`/`seek`/`tell` methods
  return `Except PyErr _` because Python raises `ValueError` on a closed
  file and `OSError` (= `IOError`) on a seek to a negative position.
- Mutation of `self` / `self.arfile` is modelled by explicit state passing:
  each method returns the updated member and archive records.
- The `ArMember.arfile` back-reference is threaded as an explicit `ArFile`
  argument; environment-only fields of the Python classes (`name` of the
  archive file, `mode`, `encoding`, `errors`, `_modemap`, `ArMember.mode`,
  `ArMember._closed`) do not participate in any modelled operation on
  in-memory archives and are not carried in the records.
- Member names are kept as raw bytes; the Python-3 `decode`/`encode` steps
  are identity on the ASCII inputs the claims are about.
-/

/-- Python `bytes`: a list of byte values. -/
abbrev ByteStr := List Nat

/-- Byte string literal helper: the ASCII bytes of a Lean string. -/
def bs (s : String) : ByteStr := s.data.map Char.toNat

/-- Python whitespace bytes, as used by `bytes.strip` / `bytes.rstrip`. -/
def isPySpace (c : Nat) : Bool := c = 32 || c = 9 || c = 10 || c = 13 || c = 11 || c = 12

/-- Python `bytes.rstrip()` with no argument: drop trailing whitespace. -/
def pyRstrip (l : ByteStr) : ByteStr := (l.reverse.dropWhile isPySpace).reverse

/-- Python `bytes.lstrip()` with no argument: drop leading whitespace. -/
def pyLstrip (l : ByteStr) : ByteStr := l.dropWhile isPySpace

/-- Python `bytes.strip()` with no argument. -/
def pyStrip (l : ByteStr) : ByteStr := pyLstrip (pyRstrip l)

/-- `clean_fn` from arfile.py: `fn.rstrip().split(b"/")[0]`, i.e. the
rstripped bytes up to (excluding) the first `/`. -/
def clean_fn (fn : ByteStr) : ByteStr := (pyRstrip fn).takeWhile (fun c => c ≠ 47)

/-- ASCII decimal digit test. -/
def isDigitByte (c : Nat) : Bool := 48 ≤ c && c ≤ 57

/-- Value of an all-digit byte string. -/
def digitsVal (l : ByteStr) : Nat := l.foldl (fun a c => a * 10 + (c - 48)) 0

/-- Python `int()` applied to a byte/character string: strip whitespace,
then an optional sign followed by a nonempty digit run; `none` models the
`ValueError` raised otherwise. -/
def pyInt? (s : ByteStr) : Option Int :=
  let t := pyStrip s
  match t with
  | [] => none
  | c :: rest =>
    if c = 45 then
      if rest ≠ [] ∧ rest.all isDigitByte then some (-(digitsVal rest : Int)) else none
    else if c = 43 then
      if rest ≠ [] ∧ rest.all isDigitByte then some (digitsVal rest : Int) else none
    else if t.all isDigitByte then some (digitsVal t : Int) else none

/-- Python slicing `l[a:b]` for `0 ≤ a ≤ b` (clamping at the ends, as in
Python). -/
def pySlice (l : ByteStr) (a b : Nat) : ByteStr := (l.drop a).take (b - a)

/-- Python `data.find(b, pos)`: index of the first occurrence of byte `b`
at position `≥ pos`, `none` for `-1`. -/
def findFrom (l : ByteStr) (b : Nat) (pos : Nat) : Option Nat :=
  match (l.drop pos).findIdx? (fun c => c = b) with
  | some i => some (pos + i)
  | none => none

/-- Python dict assignment `d[k] = v` on an insertion-ordered association
list: overwrite an existing key in place, else append. -/
def pyDictSet {α β : Type} [DecidableEq α] (mp : List (α × β)) (k : α) (v : β) :
    List (α × β) :=
  if mp.any (fun kv => kv.1 = k) then
    mp.map (fun kv => if kv.1 = k then (k, v) else kv)
  else mp ++ [(k, v)]

/-- The Python exceptions that arfile.py code paths can raise. -/
inductive PyErr
  | ioError            -- IOError / OSError
  | valueError         -- ValueError (incl. operations on a closed file object)
  | arError            -- arfile.ArError
  | keyError           -- KeyError (dict lookup miss)
  | indexError         -- IndexError (list index miss)
  | attributeError     -- AttributeError (attribute lookup miss / None access)
  | notImplementedError
  deriving DecidableEq, Repr

/-- The shared underlying file object: contents, position, closed flag. -/
structure FpState where
  data : ByteStr
  pos : Nat
  closed : Bool
  deriving DecidableEq, Repr

/-- `fp.tell()`: raises ValueError on a closed file. -/
def fpTell (fp : FpState) : Except PyErr Int :=
  if fp.closed then .error .valueError else .ok (fp.pos : Int)

/-- `fp.seek(off, whence)` for `whence ∈ {0, 1}` as used by arfile.py:
ValueError on a closed file, IOError (OSError EINVAL) on a negative target
position; seeking past the end of the data is allowed. -/
def fpSeek (fp : FpState) (off : Int) (whence : Nat) : Except PyErr FpState :=
  if fp.closed then .error .valueError
  else
    let target : Int := if whence = 1 then (fp.pos : Int) + off else off
    if target < 0 then .error .ioError
    else .ok { fp with pos := target.toNat }

/-- `fp.read(n)`: ValueError on a closed file; a negative `n` reads to the
end of the data; otherwise up to `n` bytes from the current position. -/
def fpRead (fp : FpState) (n : Int) : Except PyErr (ByteStr × FpState) :=
  if fp.closed then .error .valueError
  else
    let avail := fp.data.drop fp.pos
    let buf := if n < 0 then avail else avail.take n.toNat
    .ok (buf, { fp with pos := fp.pos + buf.length })

/-- `BSD_FORMAT = 0` in arfile.py. -/
def BSD_FORMAT : Int := 0
/-- `GNU_FORMAT = 1` in arfile.py. -/
def GNU_FORMAT : Int := 1
/-- `GLOBAL_HEADER` in arfile.py. -/
def GLOBAL_HEADER : ByteStr := bs "!<arch>\n"
/-- `FILE_HEADER_LENGTH = 60` in arfile.py. -/
def FILE_HEADER_LENGTH : Nat := 60
/-- `FILE_MAGIC = b"`\n"` in arfile.py. -/
def FILE_MAGIC : ByteStr := [96, 10]

/-- State of an `ArMember` object: the fields set in `ArMember.__init__`
and mutated by `from_buf` / `_parse_name` / the stream methods.  `fmode`
holds the member's file-mode attribute as a byte string (raw header bytes
for parsed members, `'%o' % st.st_mode` for writer members; the
`__init__` default `0o644` is the int 420, which `str.format` renders in
decimal). -/
structure ArMember where
  name : ByteStr := []
  _endslash : Int := 0
  mtime : Int := 0
  owner : Int := 0
  group : Int := 0
  fmode : ByteStr := bs "420"
  size : Int := 0
  _offset : Int := 0
  _end : Int := 0
  _seekpos : Int := 0
  deriving DecidableEq, Repr

/-- State of an `ArFile` object: the fields set in `ArFile.__init__` that
participate in indexing and member I/O.  `_fileobj = none` models
`self._fileobj is None`. -/
structure ArFile where
  members : List ArMember := []
  members_dict : List (ByteStr × ArMember) := []
  format : Option Int := none
  _endslash : Option Int := none
  _longfn_map : List (Int × ByteStr) := []
  _fileobj : Option FpState := none
  deriving DecidableEq, Repr

/-- `ArMember.seek(offset, whence)` (arfile.py lines 246-260).
`_ensure_open` raises IOError when `arfile._fileobj is None`; then the
underlying handle is bumped up to `_offset` if it lies before it, the
guard `whence < 2 and offset + fp.tell() < self._offset` raises IOError,
the underlying seek runs for `whence ∈ {0,1,2}` (no seek for any other
value), and `_seekpos` is recomputed from the resulting position. -/
def ArMember.seek (m : ArMember) (ar : ArFile) (offset : Int) (whence : Int) :
    Except PyErr (ArMember × ArFile) :=
  match ar._fileobj with
  | none => .error .ioError
  | some fp =>
    match fpTell fp with
    | .error e => .error e
    | .ok cur =>
      match (if cur < m._offset then fpSeek fp m._offset 0 else .ok fp) with
      | .error e => .error e
      | .ok fp =>
        match fpTell fp with
        | .error e => .error e
        | .ok cur2 =>
          if whence < 2 ∧ offset + cur2 < m._offset then .error .ioError
          else
            match (if whence = 1 then fpSeek fp offset 1
                   else if whence = 0 then fpSeek fp (m._offset + offset) 0
                   else if whence = 2 then fpSeek fp (m._end + offset) 0
                   else .ok fp) with
            | .error e => .error e
            | .ok fp =>
              match fpTell fp with
              | .error e => .error e
              | .ok t =>
                .ok ({ m with _seekpos := t - m._offset },
                     { ar with _fileobj := some fp })

/-- `ArMember.read(size=0)` (arfile.py lines 204-217).  After
`_ensure_open` and `self.seek(self._seekpos)`: if `size` fits in the
remaining window, seek to `_offset + _seekpos` and read `size` bytes; if
the absolute position is outside `[_offset, _end)`, return `b''`;
otherwise read the remaining `_end - _offset - _seekpos` bytes. -/
def ArMember.read (m : ArMember) (ar : ArFile) (size : Int) :
    Except PyErr (ByteStr × ArMember × ArFile) :=
  match ar._fileobj with
  | none => .error .ioError
  | some _ =>
    match m.seek ar m._seekpos 0 with
    | .error e => .error e
    | .ok (m, ar) =>
      match ar._fileobj with
      | none => .error .attributeError
      | some fp =>
        if size > 0 ∧ size ≤ m._end - m._offset - m._seekpos then
          match fpSeek fp (m._offset + m._seekpos) 0 with
          | .error e => .error e
          | .ok fp =>
            match fpRead fp size with
            | .error e => .error e
            | .ok (buf, fp) =>
              .ok (buf, { m with _seekpos := m._seekpos + buf.length },
                   { ar with _fileobj := some fp })
        else if m._offset + m._seekpos ≥ m._end ∨ m._offset + m._seekpos < m._offset then
          .ok ([], m, ar)
        else
          match fpRead fp (m._end - m._offset - m._seekpos) with
          | .error e => .error e
          | .ok (buf, fp) =>
            .ok (buf, { m with _seekpos := m._seekpos + buf.length },
                 { ar with _fileobj := some fp })

/-- `ArMember.tell()` (arfile.py lines 262-263): returns `self._seekpos`
unconditionally — no open check and no access to the underlying handle. -/
def ArMember.tell (m : ArMember) : Int := m._seekpos

/-- `ArMember._tell()` (arfile.py lines 265-272): `_ensure_open`, then the
underlying position relative to `_offset`, clamped to 0 when the
underlying position precedes `_offset`. -/
def ArMember._tell (m : ArMember) (ar : ArFile) : Except PyErr Int :=
  match ar._fileobj with
  | none => .error .ioError
  | some fp =>
    match fpTell fp with
    | .error e => .error e
    | .ok cur => if cur < m._offset then .ok 0 else .ok (cur - m._offset)

/-- `ArFile.close()` (arfile.py lines 509-510): `self._fileobj.close()`.
The attribute is not reset to `None`; the file object is merely closed
(AttributeError if `_fileobj` is `None`). -/
def ArFile.close (ar : ArFile) : Except PyErr ArFile :=
  match ar._fileobj with
  | none => .error .attributeError
  | some fp => .ok { ar with _fileobj := some { fp with closed := true } }

/-- Body of `ArFile._parse_long_fn` (arfile.py lines 386-395): scan the
long-filename blob for newlines, mapping each entry's starting byte offset
to `data[pos:nextlf+1]`.  Fuel bounds the `while` loop; `data.length + 1`
iterations always suffice because `pos` strictly increases. -/
def parseLongFnLoop (data : ByteStr) : Nat → Nat → List (Int × ByteStr) → List (Int × ByteStr)
  | _, 0, mp => mp
  | pos, fuel + 1, mp =>
    match findFrom data 10 pos with
    | none => mp
    | some nextlf =>
      parseLongFnLoop data (nextlf + 1) fuel (pyDictSet mp (pos : Int) (pySlice data pos (nextlf + 1)))

/-- `ArFile._parse_long_fn(data)` applied to an initial map. -/
def ArFile._parse_long_fn (mp : List (Int × ByteStr)) (data : ByteStr) : List (Int × ByteStr) :=
  parseLongFnLoop data 0 (data.length + 1) mp

/-- Format detection from `ArMember._parse_name` (arfile.py lines
146-150): when `self.arfile.format` is still `None`, a raw name field
starting with `/` or ending (after strip) in `/` sets GNU format, any
other name sets BSD format; once set the format is untouched. -/
def detectFormat (ar : ArFile) (name : ByteStr) : ArFile :=
  if ar.format = none then
    if name.head? = some 47 ∨ (pyStrip name).getLast? = some 47 then
      { ar with format := some GNU_FORMAT }
    else
      { ar with format := some BSD_FORMAT }
  else ar

/-- `ArMember._parse_name(name)` (arfile.py lines 143-183).  Detects the
archive format from the first parsed name, then resolves GNU `/<offset>`
references through `_longfn_map`, or BSD `#1/<length>` inline names by
reading `length` bytes from the underlying handle and shifting
`_offset`/`size`.  Returns the updated member and archive. -/
def ArMember._parse_name (m : ArMember) (ar : ArFile) (name : ByteStr) :
    Except PyErr (ArMember × ArFile) :=
  let ar := detectFormat ar name
  if ar.format = some GNU_FORMAT then
    let m := { m with _endslash := 1 }
    if name.head? = some 47 then
      -- int(name.decode(...).split('/', 1)[1].strip())
      match findFrom name 47 0 with
      | none => .error .indexError
      | some i =>
        match pyInt? (name.drop (i + 1)) with
        | none => .error .valueError
        | some long_fn_index =>
          match ar._longfn_map.lookup long_fn_index with
          | none => .error .keyError
          | some fn => .ok ({ m with name := clean_fn fn }, ar)
    else
      .ok ({ m with name := clean_fn name }, ar)
  else if ar.format = some BSD_FORMAT then
    let m := { m with _endslash := 0 }
    if name.take 3 = bs "#1/" then
      match pyInt? (name.drop 3) with
      | none => .error .valueError
      | some long_fn_length =>
        match ar._fileobj with
        | none => .error .attributeError
        | some fp =>
          match fpRead fp long_fn_length with
          | .error e => .error e
          | .ok (lfn, fp) =>
            .ok ({ m with name := clean_fn lfn,
                          _offset := m._offset + long_fn_length,
                          size := m.size + -long_fn_length,
                          _seekpos := 0 },
                 { ar with _fileobj := some fp })
    else
      .ok ({ m with name := clean_fn name }, ar)
  else
    .error .notImplementedError

/-- Result of `ArMember.from_buf`: Python `None` (empty buffer), Python
`False` (the GNU `//` long-filename pseudo-member was absorbed), or a new
member. -/
inductive FromBufRes
  | noBuf
  | pseudo (ar : ArFile)
  | mem (m : ArMember) (ar : ArFile)
  deriving DecidableEq, Repr

/-- `ArMember.from_buf(buf, arfile, offset)` (arfile.py lines 72-125).
`offset` is the start-of-data offset passed by `from_arfile` (the handle
position right after the 60-byte header read).  The disjunct
`buf[0] == b'/'` of the `_endslash` test compares an int with bytes under
Python 3 and is therefore always false; it is dropped here. -/
def ArMember.from_buf (buf : ByteStr) (ar : ArFile) (offset : Int) :
    Except PyErr FromBufRes :=
  if buf = [] then .ok .noBuf
  else if buf.length < FILE_HEADER_LENGTH then .error .ioError
  else if pySlice buf 58 60 ≠ FILE_MAGIC then .error .ioError
  else
    let m : ArMember :=
      { _endslash := if (pyRstrip (pySlice buf 0 16)).getLast? = some 47 then 1 else 0 }
    match pyInt? (pySlice buf 48 58) with
    | none => .error .valueError
    | some size =>
      let m := { m with size := size, _offset := offset, _end := offset + size }
      if m._endslash ≠ (0 : Int) ∧ pyRstrip (pySlice buf 0 16) = bs "//" then
        -- long filename mapping data: obj.seek(0); arfile._parse_long_fn(obj.read())
        match m.seek ar 0 0 with
        | .error e => .error e
        | .ok (m, ar) =>
          match m.read ar 0 with
          | .error e => .error e
          | .ok (data, _, ar) =>
            .ok (.pseudo { ar with _longfn_map := ArFile._parse_long_fn ar._longfn_map data })
      else
        match m._parse_name ar (pySlice buf 0 16) with
        | .error e => .error e
        | .ok (m, ar) =>
          match pyInt? (pySlice buf 16 28), pyInt? (pySlice buf 28 34),
                pyInt? (pySlice buf 34 40) with
          | some mtime, some owner, some group =>
            .ok (.mem { m with mtime := mtime, owner := owner, group := group,
                               fmode := pySlice buf 40 48 } ar)
          | _, _, _ => .error .valueError

/-- Result of one iteration of the `while True` loop of
`ArFile._index_archive`. -/
inductive StepRes
  | done (ar : ArFile)
  | skipped (ar : ArFile)
  | added (ar : ArFile) (m : ArMember)
  deriving DecidableEq, Repr

/-- One iteration of the `while True` loop of `ArFile._index_archive`
(arfile.py lines 352-370): read a 60-byte header (`from_arfile` passes
`fp.tell()` after the read as the data offset), build the member, record
the first member's `_endslash`, append, check the mixup condition against
`members[0]`, update `members_dict`, and skip past the payload plus one
pad byte when `size` is odd. -/
def ArFile.indexStep (ar : ArFile) : Except PyErr StepRes :=
  match ar._fileobj with
  | none => .error .attributeError
  | some fp =>
    match fpRead fp 60 with
    | .error e => .error e
    | .ok (buf, fp) =>
      let ar := { ar with _fileobj := some fp }
      match fpTell fp with
      | .error e => .error e
      | .ok offset =>
        match ArMember.from_buf buf ar offset with
        | .error e => .error e
        | .ok .noBuf => .ok (.done ar)
        | .ok (.pseudo ar) => .ok (.skipped ar)
        | .ok (.mem m ar) =>
          let ar := if ar._endslash = none then { ar with _endslash := some m._endslash } else ar
          let ar := { ar with members := ar.members ++ [m] }
          match ar.members.head? with
          | none => .error .indexError
          | some m0 =>
            if m0._endslash ≠ m._endslash then .error .valueError
            else
              let ar := { ar with members_dict := pyDictSet ar.members_dict m.name m }
              match ar._fileobj with
              | none => .error .attributeError
              | some fp =>
                match (if m.size % 2 = 0 then fpSeek fp m._end 0
                       else fpSeek fp (m._end + 1) 0) with
                | .error e => .error e
                | .ok fp => .ok (.added { ar with _fileobj := some fp } m)

/-- The `while True` loop of `ArFile._index_archive`, bounded by fuel.
Real archives terminate well within `data.length + 1` iterations; running
out of fuel returns the state reached so far. -/
def ArFile.indexLoop (ar : ArFile) : Nat → Except PyErr ArFile
  | 0 => .ok ar
  | fuel + 1 =>
    match ar.indexStep with
    | .error e => .error e
    | .ok (.done ar) => .ok ar
    | .ok (.skipped ar) => ArFile.indexLoop ar fuel
    | .ok (.added ar _) => ArFile.indexLoop ar fuel

/-- `ArFile._index_archive` run over in-memory archive bytes through a
fresh `ArFile` state (mode `'r'`, `format=None`): check the 8-byte global
header and scan members. -/
def ArFile._index_archive (data : ByteStr) : Except PyErr ArFile :=
  let fp : FpState := { data := data, pos := 0, closed := false }
  match fpRead fp 8 with
  | .error e => .error e
  | .ok (hdr, fp) =>
    if hdr ≠ GLOBAL_HEADER then .error .arError
    else ArFile.indexLoop { _fileobj := some fp } (data.length + 1)

/-- Member names of an indexed archive, in archive order. -/
def indexedNames (data : ByteStr) : Except PyErr (List ByteStr) :=
  (ArFile._index_archive data).map (fun ar => ar.members.map (fun m => m.name))

/-- `_endslash` flags of an indexed archive's members, in archive order. -/
def memberFlags (data : ByteStr) : Except PyErr (List Int) :=
  (ArFile._index_archive data).map (fun ar => ar.members.map (fun m => m._endslash))

/-- Truthiness of `ArFile._endslash` (`None` or an int). -/
def optIntTruthy : Option Int → Bool
  | none => false
  | some k => k ≠ 0

/-- Python `'{0: <w}'.format(x)`: left-justify, pad with spaces to width
`w`; longer values are not truncated. -/
def pyFormatLeft (s : ByteStr) (w : Nat) : ByteStr := s ++ List.replicate (w - s.length) 32

/-- Decimal rendering of an int, as Python `str.format` renders it. -/
def intToBytes (n : Int) : ByteStr := bs (toString n)

/-- `ArMember.getheader()` (arfile.py lines 185-196): the member name gets
a trailing `/` when the archive's `_endslash` is truthy, is rejected
(`NotImplementedError`) above 16 encoded bytes, and is space-padded to 16
bytes; the remaining fields are rendered by the format string
`'{0.mtime: <9}  {0.owner: <5} {0.group: <5} {0.fmode: <7} {0.size: <10}'`
followed by the backtick-newline magic. -/
def ArMember.getheader (m : ArMember) (ar : ArFile) : Except PyErr ByteStr :=
  let name := if optIntTruthy ar._endslash then m.name ++ [47] else m.name
  if name.length > 16 then .error .notImplementedError
  else
    .ok (name ++ List.replicate (16 - name.length) 32 ++
         pyFormatLeft (intToBytes m.mtime) 9 ++ bs "  " ++
         pyFormatLeft (intToBytes m.owner) 5 ++ bs " " ++
         pyFormatLeft (intToBytes m.group) 5 ++ bs " " ++
         pyFormatLeft m.fmode 7 ++ bs " " ++
         pyFormatLeft (intToBytes m.size) 10 ++ FILE_MAGIC)

/-- The attribute names bound on `ArFile` instances: every `self.X = ...`
assignment in the class body (`__init__`, `_index_archive`,
`_truncate_archive`, `_ensure_open`), plus `self.arfile.format` assigned
from `ArMember._parse_name`. -/
def arfileInstanceAttrs : List String :=
  ["members", "members_dict", "name", "_fileobj", "format", "_endslash",
   "_modemap", "_longfn_map", "encoding", "errors", "mode"]

/-- The attribute names defined on the `ArFile` class itself: the class
attribute `armember` and the methods. -/
def arfileClassAttrs : List String :=
  ["armember", "__init__", "_index_archive", "_truncate_archive",
   "_ensure_open", "_parse_long_fn", "getmember", "getmembers", "getnames",
   "extractall", "extract", "extractfile", "getarmember", "add", "addfile",
   "_addfile", "close", "__iter__", "__getitem__"]

/-- The attribute `ArFile.__iter__` reads: `self.__members` inside
`class ArFile` is name-mangled by Python to `_ArFile__members`. -/
def arfileIterAttrName : String := "_ArFile__members"

/-- `ArFile.__iter__` (arfile.py lines 512-515): `iter(self.__members)`.
The attribute lookup succeeds only if `_ArFile__members` is bound on the
instance or the class; otherwise Python raises `AttributeError` before
anything is yielded. -/
def ArFile.iterMembers : Except PyErr Unit :=
  if arfileIterAttrName ∈ arfileInstanceAttrs ∨ arfileIterAttrName ∈ arfileClassAttrs then
    .ok ()
  else .error .attributeError

/-- Build one 60-byte on-disk member header from field strings, following
the documented layout (name 16, mtime 12, owner 6, group 6, mode 8,
size 10, magic 2).  Used only to construct concrete test archives. -/
def mkHeader (name mt ow gr md sz : String) : ByteStr :=
  pyFormatLeft (bs name) 16 ++ pyFormatLeft (bs mt) 12 ++ pyFormatLeft (bs ow) 6 ++
  pyFormatLeft (bs gr) 6 ++ pyFormatLeft (bs md) 8 ++ pyFormatLeft (bs sz) 10 ++ FILE_MAGIC

/-- A two-member archive mixing the conventions: the first member's raw
name field `foo/` establishes GNU format, the second member's name field
`bar.txt` is a plain BSD-style name. -/
def mixedArchive : ByteStr :=
  GLOBAL_HEADER ++
  mkHeader "foo/" "0" "0" "0" "644" "4" ++ bs "abcd" ++
  mkHeader "bar.txt" "0" "0" "0" "644" "2" ++ bs "hi"

/-- A GNU archive whose `//` long-filename table has odd size 9 and is,
as on disk, followed by one pad byte before the next member header (whose
name field `/0` refers to table offset 0). -/
def gnuPaddedArchive : ByteStr :=
  GLOBAL_HEADER ++
  mkHeader "//" "0" "0" "0" "0" "9" ++ bs "foo.txt/\n" ++ bs "\n" ++
  mkHeader "/0" "0" "0" "0" "644" "4" ++ bs "abcd"

/-- The same GNU archive without the pad byte after the odd-sized `//`
table. -/
def gnuUnpaddedArchive : ByteStr :=
  GLOBAL_HEADER ++
  mkHeader "//" "0" "0" "0" "0" "9" ++ bs "foo.txt/\n" ++
  mkHeader "/0" "0" "0" "0" "644" "4" ++ bs "abcd"

/-- The spec's two-member scenario archive: `a.txt` (5 bytes `hello`,
odd, padded) then `b.txt` (4 bytes `bye!`). -/
def simpleArchive : ByteStr :=
  GLOBAL_HEADER ++
  mkHeader "a.txt" "0" "0" "0" "644" "5" ++ bs "hello" ++ bs "\n" ++
  mkHeader "b.txt" "0" "0" "0" "644" "4" ++ bs "bye!"

/-- A member of a BSD-format archive (`ArFile._endslash = 0`, so no slash
suffix is appended on encode), with `__init__`-like small field values. -/
def bsdArFile : ArFile := { _endslash := some 0 }

/-- Member with 1-byte name and all-zero numeric fields. -/
def memberZero : ArMember :=
  { name := bs "a", mtime := 0, owner := 0, group := 0, fmode := bs "644", size := 0 }

/-- The same member with a 10-decimal-digit modification time. -/
def memberModernMtime : ArMember :=
  { name := bs "a", mtime := 1234567890, owner := 0, group := 0, fmode := bs "644", size := 0 }

/-- Member whose encoded name has 17 bytes. -/
def memberLongName : ArMember :=
  { name := bs "abcdefghijklmnopq", mtime := 0, owner := 0, group := 0,
    fmode := bs "644", size := 0 }

/-- Underlying handle positioned at 13, past the member's data start. -/
def fpAt13 : FpState := { data := List.replicate 20 65, pos := 13, closed := false }

/-- Archive handle wrapper around `fpAt13`. -/
def arAt13 : ArFile := { _fileobj := some fpAt13 }

/-- Member with data window `[8, 12)` and cursor 5. -/
def memberWin8 : ArMember := { name := bs "x", size := 4, _offset := 8, _end := 12, _seekpos := 5 }

/-- Underlying handle positioned at 8, before `memberFar`'s data start. -/
def fpAt8 : FpState := { data := List.replicate 90 65, pos := 8, closed := false }

/-- Archive handle wrapper around `fpAt8`. -/
def arAt8 : ArFile := { _fileobj := some fpAt8 }

/-- Member whose data starts at 76 while the shared handle sits at 8
(reachable by touching an earlier-positioned sibling member). -/
def memberFar : ArMember := { name := bs "y", size := 10, _offset := 76, _end := 86, _seekpos := 5 }

/-- `arAt8` after `ArFile.close()`: the handle is closed but the
`_fileobj` attribute still holds it. -/
def arAt8Closed : ArFile := { _fileobj := some { fpAt8 with closed := true } }

/-- C1: the claim says `getheader()` returns exactly 60 bytes for every
member whose encoded name is at most 16 bytes.  The code's own contract
(`assert len(hdr) == 60` in `_addfile`) agrees, but the format string
renders the mtime field in 11 bytes minimum (`'{0.mtime: <9}'` plus two
spaces) instead of the 12 the layout requires, so a member with the
`__init__`-default zero mtime encodes to 59 bytes; only e.g. a
10-decimal-digit mtime lands on 60.  Names over 16 encoded bytes do fail
with `NotImplementedError`, untruncated. -/
theorem getheader_underruns_60_bytes :
    (ArMember.getheader memberZero bsdArFile).map List.length = .ok 59 ∧
    (ArMember.getheader memberModernMtime bsdArFile).map List.length = .ok 60 ∧
    ArMember.getheader memberLongName bsdArFile = .error .notImplementedError :=
  ⟨rfl, rfl, rfl⟩

/-- C2 counterexample: `mixedArchive` opens with a GNU-convention name
field `foo/` (trailing slash) and then a BSD-convention plain name field
`bar.txt`, yet `_index_archive` indexes both members successfully instead
of failing with a format error: `_parse_name` overwrites every member's
`_endslash` with the value implied by the archive-wide `format`, so the
`BSD/GNU filename field format mixup` check can never fire. -/
theorem mixed_convention_archive_indexes_ok :
    indexedNames mixedArchive = .ok [bs "foo", bs "bar.txt"] ∧
    memberFlags mixedArchive = .ok [1, 1] ∧
    (pyRstrip (pySlice mixedArchive 8 24)).getLast? = some 47 ∧
    (pyRstrip (pySlice mixedArchive 72 88)).getLast? ≠ some 47 :=
  ⟨rfl, rfl, rfl, by decide⟩

/-- C3 counterexample: on an on-disk-correct GNU archive whose odd-sized
(9-byte) `//` long-name table is followed by its pad byte, indexing fails
with an IOError because after absorbing the pseudo-member the scanner
continues at the table's data-end without the `size mod 2` adjustment and
reads a misaligned header; the same archive without the pad byte indexes
successfully, confirming the next header is read at data-end, not at
data-end + (size mod 2). -/
theorem gnu_longname_table_padding_not_skipped :
    ArFile._index_archive gnuPaddedArchive = .error .ioError ∧
    indexedNames gnuUnpaddedArchive = .ok [bs "foo.txt"] :=
  ⟨rfl, rfl⟩

/-- C7 counterexample: with the shared handle at position 13 and the
member's data start at 8, `seek(-1, 0)` resolves to absolute target 7,
which precedes the data start, yet it does not raise: the guard tests
`offset + fp.tell() < _offset` (the current handle position, not the
resolved target), so the seek succeeds and leaves the cursor at -1. -/
theorem seek_negative_target_succeeds :
    memberWin8._offset + -1 < memberWin8._offset ∧
    ArMember.seek memberWin8 arAt13 (-1) 0 =
      .ok ({ memberWin8 with _seekpos := -1 },
           { arAt13 with _fileobj := some { fpAt13 with pos := 7 } }) :=
  ⟨by decide, rfl⟩

/-- C8 counterexample: with the shared handle at position 8, before the
member's data start 76, `tell()` still returns the stored cursor 5 and
not the claimed clamped 0 — `tell` never inspects the underlying handle;
the clamping behaviour lives in the separate `_tell`. -/
theorem tell_not_clamped :
    (fpAt8.pos : Int) < memberFar._offset ∧
    ArMember.tell memberFar = 5 ∧
    (5 : Int) ≠ 0 ∧
    ArMember._tell memberFar arAt8 = .ok 0 :=
  ⟨by decide, rfl, by decide, rfl⟩

/-- C9 counterexample: after `ArFile.close()` the `_fileobj` attribute
still holds the (closed) handle, so `_ensure_open`'s IOError never fires:
`read` and `seek` fail with the underlying handle's ValueError (exactly
what the repository's own test `test_armember_reopening` asserts), which
is not an I/O error, and `tell()` does not fail at all — it returns the
stored cursor. -/
theorem closed_archive_tell_succeeds :
    ArFile.close arAt8 = .ok arAt8Closed ∧
    ArMember.read memberFar arAt8Closed 1 = .error .valueError ∧
    ArMember.seek memberFar arAt8Closed 0 0 = .error .valueError ∧
    ArMember._tell memberFar arAt8Closed = .error .valueError ∧
    ArMember.tell memberFar = 5 ∧
    PyErr.valueError ≠ PyErr.ioError :=
  ⟨rfl, rfl, rfl, rfl, rfl, by decide⟩

/-- C10: `ArFile.__iter__` evaluates `iter(self.__members)`, whose
name-mangled attribute `_ArFile__members` is assigned by no code path
(neither an instance attribute nor a class attribute), so every iteration
attempt raises `AttributeError` before yielding anything. -/
theorem arfile_iter_attribute_error :
    ArFile.iterMembers = .error .attributeError ∧
    arfileIterAttrName ∉ arfileInstanceAttrs ∧
    arfileIterAttrName ∉ arfileClassAttrs :=
  ⟨rfl, by decide, by decide⟩

lemma fpTell_open (fp : FpState) (h : fp.closed = false) : fpTell fp = .ok (fp.pos : Int) := by
  simp [fpTell, h]

/-- `ArMember.seek` raises IOError when `offset` plus the bumped-up handle
position precedes `_offset`, for any `whence < 2`. -/
lemma seek_guard_err (m : ArMember) (ar : ArFile) (fp : FpState) (offset w : Int)
    (hfp : ar._fileobj = some fp) (hcl : fp.closed = false) (ho : 0 ≤ m._offset)
    (hw : w < 2) (hg : offset + max (fp.pos : Int) m._offset < m._offset) :
    ArMember.seek m ar offset w = .error .ioError := by
  obtain ⟨d, q, c⟩ := fp
  simp only at hcl
  subst hcl
  unfold ArMember.seek
  rw [hfp]
  simp only [fpTell, fpSeek, Bool.false_eq_true, if_false]
  norm_num
  simp only at hg
  by_cases hq : (q : Int) < m._offset
  · rw [if_pos hq, if_neg (by omega : ¬ m._offset < 0)]
    dsimp only
    simp only [Bool.false_eq_true, if_false]
    rw [if_pos (by constructor <;> omega)]
  · rw [if_neg hq]
    dsimp only
    simp only [Bool.false_eq_true, if_false]
    rw [if_pos (by constructor <;> omega)]

/-- Successful `ArMember.seek` with `whence = 1`: relative to the bumped-up
handle position. -/
lemma seek_whence1_ok (m : ArMember) (ar : ArFile) (fp : FpState) (offset : Int)
    (hfp : ar._fileobj = some fp) (hcl : fp.closed = false) (ho : 0 ≤ m._offset)
    (hg : m._offset ≤ offset + max (fp.pos : Int) m._offset) :
    ArMember.seek m ar offset 1 =
      .ok ({ m with _seekpos := max (fp.pos : Int) m._offset + offset - m._offset },
           { ar with _fileobj := some { fp with pos := (max (fp.pos : Int) m._offset + offset).toNat } }) := by
  obtain ⟨d, q, c⟩ := fp
  simp only at hcl hg ⊢
  subst hcl
  unfold ArMember.seek
  rw [hfp]
  simp only [fpTell, fpSeek, Bool.false_eq_true, if_false]
  norm_num
  by_cases hq : (q : Int) < m._offset
  · rw [if_pos hq, if_neg (by omega : ¬ m._offset < 0)]
    dsimp only
    simp only [Bool.false_eq_true, if_false]
    rw [if_neg (by omega), if_neg (by omega)]
    dsimp only
    simp only [Bool.false_eq_true, if_false]
    simp only [Except.ok.injEq, Prod.mk.injEq, ArMember.mk.injEq, ArFile.mk.injEq,
               FpState.mk.injEq, Option.some.injEq, and_true, true_and]
    constructor <;> omega
  · rw [if_neg hq]
    dsimp only
    simp only [Bool.false_eq_true, if_false]
    rw [if_neg (by omega), if_neg (by omega)]
    dsimp only
    simp only [Bool.false_eq_true, if_false]
    simp only [Except.ok.injEq, Prod.mk.injEq, ArMember.mk.injEq, ArFile.mk.injEq,
               FpState.mk.injEq, Option.some.injEq, and_true, true_and]
    constructor <;> omega

/-- Successful `ArMember.seek` with `whence = 0`: absolute target
`_offset + offset`. -/
lemma seek_whence0_ok (m : ArMember) (ar : ArFile) (fp : FpState) (offset : Int)
    (hfp : ar._fileobj = some fp) (hcl : fp.closed = false) (ho : 0 ≤ m._offset)
    (hg : m._offset ≤ offset + max (fp.pos : Int) m._offset)
    (ht : 0 ≤ m._offset + offset) :
    ArMember.seek m ar offset 0 =
      .ok ({ m with _seekpos := offset },
           { ar with _fileobj := some { fp with pos := (m._offset + offset).toNat } }) := by
  obtain ⟨d, q, c⟩ := fp
  simp only at hcl hg ⊢
  subst hcl
  unfold ArMember.seek
  rw [hfp]
  simp only [fpTell, fpSeek, Bool.false_eq_true, if_false]
  norm_num
  by_cases hq : (q : Int) < m._offset
  · rw [if_pos hq, if_neg (by omega : ¬ m._offset < 0)]
    dsimp only
    simp only [Bool.false_eq_true, if_false]
    rw [if_neg (by omega), if_neg (by omega)]
    dsimp only
    simp only [Bool.false_eq_true, if_false]
    simp only [Except.ok.injEq, Prod.mk.injEq, ArMember.mk.injEq, ArFile.mk.injEq,
               FpState.mk.injEq, Option.some.injEq, and_true, true_and]
    omega
  · rw [if_neg hq]
    dsimp only
    simp only [Bool.false_eq_true, if_false]
    rw [if_neg (by omega), if_neg (by omega)]
    dsimp only
    simp only [Bool.false_eq_true, if_false]
    simp only [Except.ok.injEq, Prod.mk.injEq, ArMember.mk.injEq, ArFile.mk.injEq,
               FpState.mk.injEq, Option.some.injEq, and_true, true_and]
    omega

/-- `ArMember.seek` with `whence = 0` and a negative absolute target
raises IOError (from the guard or from the underlying seek). -/
lemma seek_whence0_neg (m : ArMember) (ar : ArFile) (fp : FpState) (offset : Int)
    (hfp : ar._fileobj = some fp) (hcl : fp.closed = false) (ho : 0 ≤ m._offset)
    (ht : m._offset + offset < 0) :
    ArMember.seek m ar offset 0 = .error .ioError := by
  obtain ⟨d, q, c⟩ := fp
  simp only at hcl ⊢
  subst hcl
  unfold ArMember.seek
  rw [hfp]
  simp only [fpTell, fpSeek, Bool.false_eq_true, if_false]
  norm_num
  by_cases hq : (q : Int) < m._offset
  · rw [if_pos hq, if_neg (by omega : ¬ m._offset < 0)]
    dsimp only
    simp only [Bool.false_eq_true, if_false]
    by_cases hgg : offset + (m._offset.toNat : Int) < m._offset
    · rw [if_pos hgg]
    · rw [if_neg hgg, if_pos (by omega)]
  · rw [if_neg hq]
    dsimp only
    simp only [Bool.false_eq_true, if_false]
    by_cases hgg : offset + (q : Int) < m._offset
    · rw [if_pos hgg]
    · rw [if_neg hgg, if_pos (by omega)]

lemma seek_nonneg (m : ArMember) (ar : ArFile) (fp : FpState) (p : Int)
    (hfp : ar._fileobj = some fp) (hcl : fp.closed = false)
    (ho : 0 ≤ m._offset) (hp : 0 ≤ p) :
    ArMember.seek m ar p 0 =
      .ok ({ m with _seekpos := p },
           { ar with _fileobj := some { fp with pos := (m._offset + p).toNat } }) :=
  seek_whence0_ok m ar fp p hfp hcl ho (by omega) (by omega)

/-- C7 amended: for `whence ∈ {0,1}` on an open member, `seek` raises
IOError exactly when `offset` plus the current underlying position
(bumped up to `_offset` if it lay before it) precedes `_offset` — the
guard uses the handle position, not the resolved target, so a `whence=0`
target before data-start is accepted whenever the handle sits far enough
ahead; otherwise the underlying seek runs (`whence=0` additionally fails
with IOError when the absolute target `_offset + offset` is negative) and
the cursor becomes the resulting absolute position minus `_offset`. -/
theorem member_seek_guard (m : ArMember) (ar : ArFile) (fp : FpState) (offset w : Int)
    (hfp : ar._fileobj = some fp) (hcl : fp.closed = false) (ho : 0 ≤ m._offset)
    (hw : w = 0 ∨ w = 1) :
    (offset + max (fp.pos : Int) m._offset < m._offset →
       ArMember.seek m ar offset w = .error .ioError) ∧
    (w = 1 → m._offset ≤ offset + max (fp.pos : Int) m._offset →
       ArMember.seek m ar offset w =
         .ok ({ m with _seekpos := max (fp.pos : Int) m._offset + offset - m._offset },
              { ar with _fileobj := some { fp with pos := (max (fp.pos : Int) m._offset + offset).toNat } })) ∧
    (w = 0 → m._offset ≤ offset + max (fp.pos : Int) m._offset → 0 ≤ m._offset + offset →
       ArMember.seek m ar offset w =
         .ok ({ m with _seekpos := offset },
              { ar with _fileobj := some { fp with pos := (m._offset + offset).toNat } })) ∧
    (w = 0 → m._offset + offset < 0 → ArMember.seek m ar offset w = .error .ioError) :=
  ⟨fun hg => seek_guard_err m ar fp offset w hfp hcl ho (by rcases hw with h | h <;> omega) hg,
   fun hw1 hg => by subst hw1; exact seek_whence1_ok m ar fp offset hfp hcl ho hg,
   fun hw0 hg ht => by subst hw0; exact seek_whence0_ok m ar fp offset hfp hcl ho hg ht,
   fun hw0 ht => by subst hw0; exact seek_whence0_neg m ar fp offset hfp hcl ho ht⟩

/-- Witness for `member_seek_guard` at concrete states: an in-window
absolute seek succeeds, a guard-violating one raises IOError, and a
relative seek back to data-start succeeds. -/
theorem member_seek_guard_witness :
    ArMember.seek memberWin8 arAt13 2 0 =
      .ok ({ memberWin8 with _seekpos := 2 },
           { arAt13 with _fileobj := some { fpAt13 with pos := 10 } }) ∧
    ArMember.seek memberWin8 arAt13 (-10) 0 = .error .ioError ∧
    ArMember.seek memberWin8 arAt13 (-5) 1 =
      .ok ({ memberWin8 with _seekpos := 0 },
           { arAt13 with _fileobj := some { fpAt13 with pos := 8 } }) :=
  ⟨(member_seek_guard memberWin8 arAt13 fpAt13 2 0 rfl rfl (by decide) (Or.inl rfl)).2.2.1
      rfl (by decide) (by decide),
   (member_seek_guard memberWin8 arAt13 fpAt13 (-10) 0 rfl rfl (by decide) (Or.inl rfl)).1
      (by decide),
   (member_seek_guard memberWin8 arAt13 fpAt13 (-5) 1 rfl rfl (by decide) (Or.inr rfl)).2.1
      rfl (by decide)⟩

/-- C8 amended: `tell()` returns the stored relative cursor `_seekpos`
unconditionally; it is the separate internal `_tell()` that inspects the
underlying handle and clamps to 0 when the handle position precedes
`_offset` (returning the relative position otherwise). -/
theorem tell_and_underscore_tell (m : ArMember) (ar : ArFile) (fp : FpState)
    (hfp : ar._fileobj = some fp) (hcl : fp.closed = false) :
    ArMember.tell m = m._seekpos ∧
    ((fp.pos : Int) < m._offset → ArMember._tell m ar = .ok 0) ∧
    (m._offset ≤ (fp.pos : Int) → ArMember._tell m ar = .ok ((fp.pos : Int) - m._offset)) := by
  refine ⟨rfl, fun h => ?_, fun h => ?_⟩ <;>
    · unfold ArMember._tell
      rw [hfp]
      dsimp only
      rw [fpTell_open fp hcl]
      dsimp only
      first
      | rw [if_pos h]
      | rw [if_neg (by omega)]

/-- Witness for `tell_and_underscore_tell` at a concrete state where the
shared handle precedes the member's data start. -/
theorem tell_and_underscore_tell_witness :
    ArMember.tell memberFar = memberFar._seekpos ∧
    ArMember._tell memberFar arAt8 = .ok 0 :=
  ⟨(tell_and_underscore_tell memberFar arAt8 fpAt8 rfl rfl).1,
   (tell_and_underscore_tell memberFar arAt8 fpAt8 rfl rfl).2.1 (by decide)⟩

/-- C9 amended: once the owning archive is closed, `_fileobj` still holds
the (closed) handle, so `read` and `seek` fail with the handle's
ValueError — not the IOError of `_ensure_open`, which only fires for a
`None` handle — and `_tell` does too, while `tell()` never touches the
handle and still succeeds, returning the stored cursor. -/
theorem closed_archive_ops (m : ArMember) (ar : ArFile) (fp : FpState) (n off w : Int)
    (hfp : ar._fileobj = some fp) (hcl : fp.closed = true) :
    ArMember.read m ar n = .error .valueError ∧
    ArMember.seek m ar off w = .error .valueError ∧
    ArMember._tell m ar = .error .valueError ∧
    ArMember.tell m = m._seekpos := by
  have hseek : ∀ o' w', ArMember.seek m ar o' w' = .error .valueError := by
    intro o' w'
    unfold ArMember.seek
    rw [hfp]
    simp [fpTell, hcl]
  refine ⟨?_, hseek off w, ?_, rfl⟩
  · unfold ArMember.read
    rw [hfp]
    dsimp only
    rw [hseek m._seekpos 0]
  · unfold ArMember._tell
    rw [hfp]
    simp [fpTell, hcl]

/-- Witness for `closed_archive_ops` at the concrete closed archive. -/
theorem closed_archive_ops_witness :
    ArMember.read memberFar arAt8Closed 3 = .error .valueError ∧
    ArMember.seek memberFar arAt8Closed 1 0 = .error .valueError ∧
    ArMember._tell memberFar arAt8Closed = .error .valueError ∧
    ArMember.tell memberFar = memberFar._seekpos :=
  closed_archive_ops memberFar arAt8Closed { fpAt8 with closed := true } 3 1 0 rfl rfl

lemma detectFormat_set (ar : ArFile) (name : ByteStr) (f : Int)
    (hfmt : ar.format = some f) : detectFormat ar name = ar := by
  simp [detectFormat, hfmt]

lemma fpRead_nonneg (fp : FpState) (n : Int) (hcl : fp.closed = false) (hn : 0 ≤ n) :
    fpRead fp n =
      .ok ((fp.data.drop fp.pos).take n.toNat,
           { fp with pos := fp.pos + ((fp.data.drop fp.pos).take n.toNat).length }) := by
  unfold fpRead
  rw [hcl]
  simp only [Bool.false_eq_true, if_false]
  rw [if_neg (by omega)]

lemma findFrom_head (l : ByteStr) (b : Nat) (h : l.head? = some b) :
    findFrom l b 0 = some 0 := by
  cases l with
  | nil => simp at h
  | cons x t =>
    simp only [List.head?_cons, Option.some.injEq] at h
    subst h
    simp [findFrom, List.findIdx?_cons]

/-- `_parse_name` on a BSD `#1/<length>` inline long name: read `length`
bytes at the current handle position as the raw name, clean it, shift
`_offset` forward and `size` down by `length`, and reset `_seekpos`. -/
lemma parse_name_bsd (m : ArMember) (ar : ArFile) (nm : ByteStr) (fp : FpState) (L : Int)
    (hfmt : ar.format = some BSD_FORMAT)
    (hfp : ar._fileobj = some fp) (hcl : fp.closed = false)
    (h13 : nm.take 3 = bs "#1/")
    (hL : pyInt? (nm.drop 3) = some L) (hL0 : 0 ≤ L) :
    ArMember._parse_name m ar nm =
      .ok ({ m with name := clean_fn ((fp.data.drop fp.pos).take L.toNat),
                    _endslash := 0,
                    _offset := m._offset + L,
                    size := m.size + -L,
                    _seekpos := 0 },
           { ar with _fileobj := some { fp with pos := fp.pos + ((fp.data.drop fp.pos).take L.toNat).length } }) := by
  unfold ArMember._parse_name
  rw [detectFormat_set ar nm BSD_FORMAT hfmt]
  rw [if_neg (by rw [hfmt]; decide)]
  rw [if_pos (by rw [hfmt])]
  dsimp only
  rw [if_pos h13, hL]
  dsimp only
  rw [hfp]
  dsimp only
  rw [fpRead_nonneg fp L hcl hL0]

/-- C4: decoding a BSD-format header whose name field is `#1/<length>`
reads exactly `length` bytes immediately after the 60-byte header (the
handle position equals the passed data offset) as the member's name,
cleaned of trailing slash/padding; the member's data start advances by
`length` and its size drops by `length`, leaving payload bytes only. -/
theorem bsd_inline_long_name_resolution
    (buf : ByteStr) (ar : ArFile) (fp : FpState) (offset L sz mt ow gr : Int)
    (hlen : buf.length = 60)
    (hmagic : pySlice buf 58 60 = FILE_MAGIC)
    (hnoslash : ¬ (pyRstrip (pySlice buf 0 16)).getLast? = some 47)
    (hfmt : ar.format = some BSD_FORMAT)
    (hfp : ar._fileobj = some fp) (hcl : fp.closed = false)
    (hpos : (fp.pos : Int) = offset)
    (h13 : (pySlice buf 0 16).take 3 = bs "#1/")
    (hL : pyInt? ((pySlice buf 0 16).drop 3) = some L) (hL0 : 0 ≤ L)
    (havail : fp.pos + L.toNat ≤ fp.data.length)
    (hsz : pyInt? (pySlice buf 48 58) = some sz)
    (hmt : pyInt? (pySlice buf 16 28) = some mt)
    (how : pyInt? (pySlice buf 28 34) = some ow)
    (hgr : pyInt? (pySlice buf 34 40) = some gr) :
    ArMember.from_buf buf ar offset =
      .ok (.mem { name := clean_fn ((fp.data.drop fp.pos).take L.toNat),
                  _endslash := 0, mtime := mt, owner := ow, group := gr,
                  fmode := pySlice buf 40 48, size := sz + -L,
                  _offset := offset + L, _end := offset + sz, _seekpos := 0 }
            { ar with _fileobj := some { fp with pos := fp.pos + L.toNat } }) := by
  have hbuflen : ((fp.data.drop fp.pos).take L.toNat).length = L.toNat := by
    simp only [List.length_take, List.length_drop]
    omega
  unfold ArMember.from_buf
  rw [if_neg (by intro h; rw [h] at hlen; exact absurd hlen (by decide))]
  rw [if_neg (by rw [hlen]; decide)]
  rw [if_neg (by simp [hmagic])]
  rw [if_neg hnoslash, hsz]
  dsimp only
  rw [if_neg (by simp)]
  rw [parse_name_bsd _ _ _ fp L hfmt hfp hcl h13 hL hL0]
  dsimp only
  rw [hmt, how, hgr]
  dsimp only
  rw [hbuflen]

/-- Concrete BSD header with name field `#1/7` and declared size 11
(7 name bytes + 4 payload bytes). -/
def bsdHeader : ByteStr := mkHeader "#1/7" "0" "0" "0" "644" "11"

/-- Underlying stream for the BSD witness: the header, then the 7 name
bytes `abc.txt`, then 4 payload bytes; positioned just after the header. -/
def bsdFp : FpState := { data := bsdHeader ++ bs "abc.txt" ++ bs "curz", pos := 60, closed := false }

/-- BSD-format archive state holding `bsdFp`. -/
def bsdAr : ArFile := { format := some BSD_FORMAT, _fileobj := some bsdFp }

/-- Witness for `bsd_inline_long_name_resolution`: name field `#1/7`
followed by the 7 bytes `abc.txt` resolves to member name `abc.txt` with
size 4 (payload only) and data start moved past the name bytes. -/
theorem bsd_inline_long_name_resolution_witness :
    ArMember.from_buf bsdHeader bsdAr 60 =
      .ok (.mem { name := bs "abc.txt", _endslash := 0, mtime := 0, owner := 0, group := 0,
                  fmode := pyFormatLeft (bs "644") 8, size := 4, _offset := 67, _end := 71,
                  _seekpos := 0 }
            { bsdAr with _fileobj := some { bsdFp with pos := 67 } }) :=
  bsd_inline_long_name_resolution bsdHeader bsdAr bsdFp 60 7 11 0 0 0
    rfl rfl (by decide) rfl rfl rfl rfl rfl rfl (by decide) (by decide) rfl rfl rfl rfl

/-- C5: resolving a GNU long-name reference: a name field starting with
`/` is parsed as `/<decimal>`, the decimal is looked up as a byte offset
in the `//` pseudo-member's offset-to-name table built by
`_parse_long_fn`, and the member name is the found entry trimmed and cut
at its first `/`. -/
theorem gnu_long_name_lookup (m : ArMember) (ar : ArFile) (nm table entry : ByteStr) (k : Int)
    (hfmt : ar.format = some GNU_FORMAT)
    (hmap : ar._longfn_map = ArFile._parse_long_fn [] table)
    (hhead : nm.head? = some 47)
    (hk : pyInt? (nm.drop 1) = some k)
    (hlook : (ArFile._parse_long_fn [] table).lookup k = some entry) :
    ArMember._parse_name m ar nm =
      .ok ({ m with name := clean_fn entry, _endslash := 1 }, ar) := by
  unfold ArMember._parse_name
  rw [detectFormat_set ar nm GNU_FORMAT hfmt]
  rw [if_pos (by rw [hfmt])]
  dsimp only
  rw [if_pos hhead]
  rw [findFrom_head nm 47 hhead]
  dsimp only
  rw [Nat.zero_add, hk]
  dsimp only
  rw [hmap, hlook]

/-- The spec's example GNU long-name table payload. -/
def gnuTable : ByteStr := bs "foo.txt/\nbarbaz.txt/\n"

/-- GNU-format archive state with `gnuTable` absorbed into
`_longfn_map`. -/
def gnuAr : ArFile := { format := some GNU_FORMAT, _longfn_map := ArFile._parse_long_fn [] gnuTable }

/-- Witness for `gnu_long_name_lookup`: with table payload
`"foo.txt/\nbarbaz.txt/\n"`, name field `/0` resolves to `foo.txt` and
name field `/9` resolves to `barbaz.txt`. -/
theorem gnu_long_name_lookup_witness :
    ArMember._parse_name {} gnuAr (pyFormatLeft (bs "/0") 16) =
      .ok ({ name := bs "foo.txt", _endslash := 1 }, gnuAr) ∧
    ArMember._parse_name {} gnuAr (pyFormatLeft (bs "/9") 16) =
      .ok ({ name := bs "barbaz.txt", _endslash := 1 }, gnuAr) :=
  ⟨gnu_long_name_lookup {} gnuAr (pyFormatLeft (bs "/0") 16) gnuTable (bs "foo.txt/\n") 0
      rfl rfl rfl rfl rfl,
   gnu_long_name_lookup {} gnuAr (pyFormatLeft (bs "/9") 16) gnuTable (bs "barbaz.txt/\n") 9
      rfl rfl rfl rfl rfl⟩

lemma fpSeek0_nonneg (fp : FpState) (off : Int) (h : fp.closed = false) (h2 : 0 ≤ off) :
    fpSeek fp off 0 = .ok { fp with pos := off.toNat } := by
  unfold fpSeek
  rw [h]
  simp only [Bool.false_eq_true, if_false]
  norm_num
  intro hlt
  exact absurd hlt (by omega)

/-- C6: bounded reads on an open member inside a well-formed archive
(window `[_offset, _offset + S)` within the data, cursor `_seekpos ≥ 0`):
a positive `n` within the remaining window returns exactly `n` bytes and
advances the cursor by `n`; an `n` exceeding the remaining window returns
exactly the remaining `S - _seekpos` bytes and sets the cursor to `S`;
with the cursor at or past the window end the read returns the empty byte
string; and `seek(S, 0)` itself succeeds, placing the cursor at `S`. -/
theorem member_read_bounds (m : ArMember) (ar : ArFile) (fp : FpState) (S n : Int)
    (hfp : ar._fileobj = some fp) (hcl : fp.closed = false)
    (ho : 0 ≤ m._offset) (hend : m._end = m._offset + S)
    (hdata : m._end ≤ (fp.data.length : Int))
    (hp0 : 0 ≤ m._seekpos) :
    (0 < n → n ≤ S - m._seekpos →
      (ArMember.read m ar n).map (fun r => ((r.1.length : Int), r.2.1._seekpos)) =
        .ok (n, m._seekpos + n)) ∧
    (m._seekpos < S → S - m._seekpos < n →
      (ArMember.read m ar n).map (fun r => ((r.1.length : Int), r.2.1._seekpos)) =
        .ok (S - m._seekpos, S)) ∧
    (S ≤ m._seekpos → (ArMember.read m ar n).map (fun r => r.1) = .ok []) ∧
    (0 ≤ S → (ArMember.seek m ar S 0).map (fun r => r.1._seekpos) = .ok S) := by
  refine ⟨fun h1 h2 => ?_, fun h1 h2 => ?_, fun h1 => ?_, fun h1 => ?_⟩
  · unfold ArMember.read
    rw [hfp]
    dsimp only
    rw [seek_nonneg m ar fp m._seekpos hfp hcl ho hp0]
    dsimp only
    rw [if_pos (by constructor <;> omega)]
    rw [fpSeek0_nonneg { fp with pos := (m._offset + m._seekpos).toNat }
          (m._offset + m._seekpos) (by exact hcl) (by omega)]
    dsimp only
    rw [fpRead_nonneg { fp with pos := (m._offset + m._seekpos).toNat }
          n (by exact hcl) (by omega)]
    dsimp only
    have hlen : ((fp.data.drop (m._offset + m._seekpos).toNat).take n.toNat).length = n.toNat := by
      simp only [List.length_take, List.length_drop]
      omega
    rw [hlen]
    simp only [Except.map, Except.ok.injEq, Prod.mk.injEq]
    omega
  · unfold ArMember.read
    rw [hfp]
    dsimp only
    rw [seek_nonneg m ar fp m._seekpos hfp hcl ho hp0]
    dsimp only
    rw [if_neg (by intro hc; omega)]
    rw [if_neg (by intro hc; rcases hc with hc | hc <;> omega)]
    rw [fpRead_nonneg { fp with pos := (m._offset + m._seekpos).toNat }
          (m._end - m._offset - m._seekpos) (by exact hcl) (by omega)]
    dsimp only
    have hlen : ((fp.data.drop (m._offset + m._seekpos).toNat).take
        (m._end - m._offset - m._seekpos).toNat).length = (m._end - m._offset - m._seekpos).toNat := by
      simp only [List.length_take, List.length_drop]
      omega
    rw [hlen]
    simp only [Except.map, Except.ok.injEq, Prod.mk.injEq]
    omega
  · unfold ArMember.read
    rw [hfp]
    dsimp only
    rw [seek_nonneg m ar fp m._seekpos hfp hcl ho hp0]
    dsimp only
    rw [if_neg (by intro hc; omega)]
    rw [if_pos (Or.inl (by omega))]
    rfl
  · rw [seek_nonneg m ar fp S hfp hcl ho h1]
    rfl

/-- Underlying stream positioned at the start of `a.txt`'s payload in the
spec's two-member scenario archive. -/
def smpFp : FpState := { data := simpleArchive, pos := 68, closed := false }

/-- Archive handle wrapper around `smpFp`. -/
def smpAr : ArFile := { _fileobj := some smpFp }

/-- The `a.txt` member record of `simpleArchive` (window `[68, 73)`). -/
def smpMember : ArMember := { name := bs "a.txt", size := 5, _offset := 68, _end := 73, _seekpos := 0 }

/-- `smpMember` with its cursor at the end of the window. -/
def smpMemberAtEnd : ArMember := { smpMember with _seekpos := 5 }

/-- Witness for `member_read_bounds` on the 5-byte member `a.txt` of the
concrete scenario archive: `read(3)` yields 3 bytes, `read(99)` yields
the 5 remaining bytes, reading at cursor 5 yields nothing, and
`seek(5, 0)` lands the cursor on 5. -/
theorem member_read_bounds_witness :
    (ArMember.read smpMember smpAr 3).map (fun r => ((r.1.length : Int), r.2.1._seekpos)) =
      .ok (3, 3) ∧
    (ArMember.read smpMember smpAr 99).map (fun r => ((r.1.length : Int), r.2.1._seekpos)) =
      .ok (5, 5) ∧
    (ArMember.read smpMemberAtEnd smpAr 3).map (fun r => r.1) = .ok [] ∧
    (ArMember.seek smpMember smpAr 5 0).map (fun r => r.1._seekpos) = .ok 5 :=
  ⟨(member_read_bounds smpMember smpAr smpFp 5 3 rfl rfl (by decide) rfl (by decide)
      (by decide)).1 (by decide) (by decide),
   (member_read_bounds smpMember smpAr smpFp 5 99 rfl rfl (by decide) rfl (by decide)
      (by decide)).2.1 (by decide) (by decide),
   (member_read_bounds smpMemberAtEnd smpAr smpFp 5 3 rfl rfl (by decide) rfl (by decide)
      (by decide)).2.2.1 (by decide),
   (member_read_bounds smpMember smpAr smpFp 5 3 rfl rfl (by decide) rfl (by decide)
      (by decide)).2.2.2 (by decide)⟩

/-- A successful `ArMember.seek` only touches the archive's `_fileobj`. -/
lemma seek_members (m m' : ArMember) (ar ar' : ArFile) (off w : Int)
    (h : ArMember.seek m ar off w = .ok (m', ar')) :
    ar'.members = ar.members ∧ ar'.format = ar.format ∧
    ar'._endslash = ar._endslash ∧ ar'._longfn_map = ar._longfn_map := by
  unfold ArMember.seek at h
  repeat' split at h
  all_goals first
    | exact Except.noConfusion h
    | (simp only [Except.ok.injEq, Prod.mk.injEq] at h
       rcases h with ⟨rfl, rfl⟩
       exact ⟨rfl, rfl, rfl, rfl⟩)

/-- A successful `ArMember.read` only touches the archive's `_fileobj`. -/
lemma read_members (m : ArMember) (ar : ArFile) (n : Int) (buf : ByteStr)
    (m' : ArMember) (ar' : ArFile)
    (h : ArMember.read m ar n = .ok (buf, m', ar')) :
    ar'.members = ar.members ∧ ar'.format = ar.format ∧
    ar'._endslash = ar._endslash ∧ ar'._longfn_map = ar._longfn_map := by
  unfold ArMember.read at h
  cases hfo : ar._fileobj with
  | none => rw [hfo] at h; exact Except.noConfusion h
  | some fp0 =>
    rw [hfo] at h
    dsimp only at h
    cases hseek : ArMember.seek m ar m._seekpos 0 with
    | error e => rw [hseek] at h; exact Except.noConfusion h
    | ok p =>
      obtain ⟨mX, arX⟩ := p
      rw [hseek] at h
      dsimp only at h
      obtain ⟨hb1, hb2, hb3, hb4⟩ := seek_members _ _ _ _ _ _ hseek
      cases hfo2 : arX._fileobj with
      | none => rw [hfo2] at h; exact Except.noConfusion h
      | some fpX =>
        rw [hfo2] at h
        dsimp only at h
        repeat' split at h
        all_goals first
          | exact Except.noConfusion h
          | (simp only [Except.ok.injEq, Prod.mk.injEq] at h
             rcases h with ⟨rfl, rfl, rfl⟩
             exact ⟨hb1, hb2, hb3, hb4⟩)

/-- `detectFormat` only ever sets `format`. -/
lemma detectFormat_members (ar : ArFile) (nm : ByteStr) :
    (detectFormat ar nm).members = ar.members ∧
    (detectFormat ar nm)._endslash = ar._endslash ∧
    (detectFormat ar nm)._longfn_map = ar._longfn_map ∧
    (detectFormat ar nm)._fileobj = ar._fileobj := by
  unfold detectFormat
  repeat' split
  all_goals exact ⟨rfl, rfl, rfl, rfl⟩

/-- A successful `_parse_name` only touches `format` and `_fileobj` on the
archive side, and preserves the member's data window: `_end` is unchanged
and `_offset + size` is invariant (the BSD branch shifts `_offset` up and
`size` down by the same length). -/
lemma parse_name_effects (m m' : ArMember) (ar ar' : ArFile) (nm : ByteStr)
    (h : ArMember._parse_name m ar nm = .ok (m', ar')) :
    ar'.members = ar.members ∧ ar'._endslash = ar._endslash ∧
    ar'._longfn_map = ar._longfn_map ∧
    m'._end = m._end ∧ m'._offset + m'.size = m._offset + m.size := by
  unfold ArMember._parse_name at h
  obtain ⟨hd1, hd2, hd3, hd4⟩ := detectFormat_members ar nm
  by_cases hg : (detectFormat ar nm).format = some GNU_FORMAT
  · rw [if_pos hg] at h
    dsimp only at h
    by_cases hh : nm.head? = some 47
    · rw [if_pos hh] at h
      cases hfind : findFrom nm 47 0 with
      | none => rw [hfind] at h; exact Except.noConfusion h
      | some i =>
        rw [hfind] at h
        dsimp only at h
        cases hint : pyInt? (nm.drop (i + 1)) with
        | none => rw [hint] at h; exact Except.noConfusion h
        | some k =>
          rw [hint] at h
          dsimp only at h
          cases hlook : (detectFormat ar nm)._longfn_map.lookup k with
          | none => rw [hlook] at h; exact Except.noConfusion h
          | some fn =>
            rw [hlook] at h
            dsimp only at h
            simp only [Except.ok.injEq, Prod.mk.injEq] at h
            rcases h with ⟨rfl, rfl⟩
            exact ⟨hd1, hd2, hd3, rfl, rfl⟩
    · rw [if_neg hh] at h
      simp only [Except.ok.injEq, Prod.mk.injEq] at h
      rcases h with ⟨rfl, rfl⟩
      exact ⟨hd1, hd2, hd3, rfl, rfl⟩
  · rw [if_neg hg] at h
    by_cases hb : (detectFormat ar nm).format = some BSD_FORMAT
    · rw [if_pos hb] at h
      dsimp only at h
      by_cases h13 : nm.take 3 = bs "#1/"
      · rw [if_pos h13] at h
        cases hint : pyInt? (nm.drop 3) with
        | none => rw [hint] at h; exact Except.noConfusion h
        | some L =>
          rw [hint] at h
          dsimp only at h
          cases hfo : (detectFormat ar nm)._fileobj with
          | none => rw [hfo] at h; exact Except.noConfusion h
          | some fp =>
            rw [hfo] at h
            dsimp only at h
            cases hrd : fpRead fp L with
            | error e => rw [hrd] at h; exact Except.noConfusion h
            | ok pr =>
              obtain ⟨lfn, fp2⟩ := pr
              rw [hrd] at h
              dsimp only at h
              simp only [Except.ok.injEq, Prod.mk.injEq] at h
              rcases h with ⟨rfl, rfl⟩
              refine ⟨hd1, hd2, hd3, rfl, ?_⟩
              dsimp only
              omega
      · rw [if_neg h13] at h
        simp only [Except.ok.injEq, Prod.mk.injEq] at h
        rcases h with ⟨rfl, rfl⟩
        exact ⟨hd1, hd2, hd3, rfl, rfl⟩
    · rw [if_neg hb] at h
      exact Except.noConfusion h

/-- Absorbing the `//` pseudo-member (`from_buf` returning Python `False`)
leaves `members` and `_endslash` untouched. -/
lemma from_buf_pseudo_effects (buf : ByteStr) (ar ar' : ArFile) (off : Int)
    (h : ArMember.from_buf buf ar off = .ok (.pseudo ar')) :
    ar'.members = ar.members ∧ ar'._endslash = ar._endslash := by
  unfold ArMember.from_buf at h
  repeat' split at h
  all_goals first
    | exact Except.noConfusion h
    | simp at h
    | skip
  all_goals split at h
  all_goals first
    | exact Except.noConfusion h
    | simp at h
    | skip
  all_goals repeat' split at h
  all_goals first
    | exact Except.noConfusion h
    | simp at h
    | skip
  all_goals
    rename_i x1 m2 ar2 hseek x2 d2 f2 ar3 hread
  all_goals subst h
  all_goals
    obtain ⟨hs1, hs2, hs3, hs4⟩ := seek_members _ _ _ _ _ _ hseek
  all_goals
    obtain ⟨hr1, hr2, hr3, hr4⟩ := read_members _ _ _ _ _ _ hread
  all_goals exact ⟨hr1.trans hs1, hr3.trans hs3⟩

/-- A decoded ordinary member satisfies the window law
`_end = _offset + size` (also after the BSD inline-name adjustment), and
decoding leaves `members` and `_endslash` untouched on the archive. -/
lemma from_buf_mem_effects (buf : ByteStr) (ar ar' : ArFile) (off : Int) (m : ArMember)
    (h : ArMember.from_buf buf ar off = .ok (.mem m ar')) :
    ar'.members = ar.members ∧ ar'._endslash = ar._endslash ∧
    m._end = m._offset + m.size := by
  unfold ArMember.from_buf at h
  repeat' split at h
  all_goals first
    | exact Except.noConfusion h
    | simp at h
    | skip
  all_goals try split at h
  all_goals first
    | exact Except.noConfusion h
    | simp at h
    | skip
  all_goals repeat' split at h
  all_goals first
    | exact Except.noConfusion h
    | simp at h
    | skip
  all_goals try rcases h with ⟨rfl, rfl⟩
  all_goals
    have hpn := (by assumption : ArMember._parse_name _ _ _ = Except.ok _)
  all_goals
    obtain ⟨hp1, hp2, hp3, hp4, hp5⟩ := parse_name_effects _ _ _ _ _ hpn
  all_goals refine ⟨hp1, hp2, ?_⟩
  all_goals dsimp only at hp4 hp5 ⊢
  all_goals omega

lemma fpSeek0_ok_pos (fp fp' : FpState) (t : Int) (h : fpSeek fp t 0 = .ok fp') :
    (fp'.pos : Int) = t := by
  unfold fpSeek at h
  split at h
  · exact Except.noConfusion h
  · norm_num at h
    split at h
    · exact Except.noConfusion h
    · rename_i hneg
      simp only [Except.ok.injEq] at h
      subst h
      simp only
      omega

/-- C3 amended: whenever one iteration of the indexing loop appends an
ordinary member `m`, the member satisfies `_end = _offset + size`
(including after the BSD inline-name adjustment) and the handle is left
at absolute position `_end + (size mod 2)`, where the next 60-byte header
is read; after absorbing the GNU `//` pseudo-member the loop instead
continues at the position the table read left (its data-end), with no
parity adjustment — see the counterexample theorem for the consequence
on an odd-sized table. -/
theorem index_step_end_and_padding (ar ar' : ArFile) (m : ArMember) (fp' : FpState)
    (h : ArFile.indexStep ar = .ok (.added ar' m))
    (hfp : ar'._fileobj = some fp') :
    m._end = m._offset + m.size ∧ (fp'.pos : Int) = m._end + m.size % 2 := by
  unfold ArFile.indexStep at h
  cases hfo : ar._fileobj with
  | none => rw [hfo] at h; exact Except.noConfusion h
  | some fp0 =>
    rw [hfo] at h
    dsimp only at h
    cases hrd : fpRead fp0 60 with
    | error e => rw [hrd] at h; exact Except.noConfusion h
    | ok pr =>
      obtain ⟨buf, fp1⟩ := pr
      rw [hrd] at h
      dsimp only at h
      cases htl : fpTell fp1 with
      | error e => rw [htl] at h; exact Except.noConfusion h
      | ok off =>
        rw [htl] at h
        dsimp only at h
        cases hfb : ArMember.from_buf buf { ar with _fileobj := some fp1 } off with
        | error e => rw [hfb] at h; exact Except.noConfusion h
        | ok r =>
          rw [hfb] at h
          cases r with
          | noBuf => simp at h
          | pseudo ar2 => simp at h
          | mem m1 ar2 =>
            dsimp only at h
            obtain ⟨he1, he2, he3⟩ := from_buf_mem_effects _ _ _ _ _ hfb
            set arA := (if ar2._endslash = none then { ar2 with _endslash := some m1._endslash } else ar2) with harA
            cases hh : (arA.members ++ [m1]).head? with
            | none => rw [hh] at h; exact Except.noConfusion h
            | some m0 =>
              rw [hh] at h
              dsimp only at h
              by_cases hflag : m0._endslash ≠ m1._endslash
              · rw [if_pos hflag] at h
                exact Except.noConfusion h
              · rw [if_neg hflag] at h
                cases hfo2 : arA._fileobj with
                | none => rw [hfo2] at h; exact Except.noConfusion h
                | some fpZ =>
                  rw [hfo2] at h
                  dsimp only at h
                  by_cases hpar : m1.size % 2 = 0
                  · rw [if_pos hpar] at h
                    cases hseek : fpSeek fpZ m1._end 0 with
                    | error e => rw [hseek] at h; exact Except.noConfusion h
                    | ok fpY =>
                      rw [hseek] at h
                      dsimp only at h
                      simp only [Except.ok.injEq, StepRes.added.injEq] at h
                      rcases h with ⟨rfl, rfl⟩
                      dsimp only at hfp
                      simp only [Option.some.injEq] at hfp
                      subst hfp
                      have hpos := fpSeek0_ok_pos _ _ _ hseek
                      exact ⟨he3, by omega⟩
                  · rw [if_neg hpar] at h
                    cases hseek : fpSeek fpZ (m1._end + 1) 0 with
                    | error e => rw [hseek] at h; exact Except.noConfusion h
                    | ok fpY =>
                      rw [hseek] at h
                      dsimp only at h
                      simp only [Except.ok.injEq, StepRes.added.injEq] at h
                      rcases h with ⟨rfl, rfl⟩
                      dsimp only at hfp
                      simp only [Option.some.injEq] at hfp
                      subst hfp
                      have hpos := fpSeek0_ok_pos _ _ _ hseek
                      exact ⟨he3, by omega⟩

/-- Archive state just after reading the global header of
`simpleArchive`. -/
def smpStartAr : ArFile := { _fileobj := some { data := simpleArchive, pos := 8, closed := false } }

/-- The member record produced for `a.txt` by one index step on
`smpStartAr`. -/
def smpMember1 : ArMember :=
  { name := bs "a.txt", _endslash := 0, mtime := 0, owner := 0, group := 0,
    fmode := pyFormatLeft (bs "644") 8, size := 5, _offset := 68, _end := 73, _seekpos := 0 }

/-- Archive state after that index step: `a.txt` appended and the handle
moved past the payload and its pad byte. -/
def smpStepAr : ArFile :=
  { members := [smpMember1], members_dict := [(bs "a.txt", smpMember1)],
    format := some BSD_FORMAT, _endslash := some 0, _longfn_map := [],
    _fileobj := some { data := simpleArchive, pos := 74, closed := false } }

/-- Witness for `index_step_end_and_padding`: indexing `a.txt` (5 bytes,
odd) out of the scenario archive leaves the handle at `73 + 1 = 74`. -/
theorem index_step_end_and_padding_witness :
    ArFile.indexStep smpStartAr = .ok (.added smpStepAr smpMember1) ∧
    smpMember1._end = smpMember1._offset + smpMember1.size ∧
    ((74 : Nat) : Int) = smpMember1._end + smpMember1.size % 2 :=
  ⟨rfl, index_step_end_and_padding smpStartAr smpStepAr smpMember1
      { data := simpleArchive, pos := 74, closed := false } rfl rfl⟩

/-- All members of an archive state carry one `_endslash` flag. -/
def flagsAligned (ar : ArFile) : Prop :=
  ∀ x ∈ ar.members, ∀ y ∈ ar.members, x._endslash = y._endslash

lemma flagsAligned_append (l : List ArMember) (m m0 : ArMember)
    (hh : (l ++ [m]).head? = some m0) (hflag : m0._endslash = m._endslash)
    (hinv : ∀ x ∈ l, ∀ y ∈ l, x._endslash = y._endslash) :
    ∀ x ∈ l ++ [m], ∀ y ∈ l ++ [m], x._endslash = y._endslash := by
  cases l with
  | nil =>
    simp only [List.nil_append, List.head?_cons, Option.some.injEq] at hh
    subst hh
    intro x hx y hy
    simp only [List.nil_append, List.mem_singleton] at hx hy
    subst hx
    subst hy
    rfl
  | cons a t =>
    simp only [List.cons_append, List.head?_cons, Option.some.injEq] at hh
    subst hh
    have key : ∀ z ∈ (a :: t) ++ [m], z._endslash = a._endslash := by
      intro z hz
      rcases List.mem_append.mp hz with hz | hz
      · exact hinv z hz a (List.mem_cons_self a t)
      · rcases List.mem_singleton.mp hz with rfl
        exact hflag.symm
    exact fun x hx y hy => (key x hx).trans (key y hy).symm

/-- One index step preserves flag alignment: `done` and `skipped` leave
`members` alone, and `added` can only succeed when the new member's flag
matches the first member's. -/
lemma indexStep_flags (ar : ArFile) (r : StepRes) (h : ArFile.indexStep ar = .ok r)
    (hinv : flagsAligned ar) :
    (∀ a, r = .done a → flagsAligned a) ∧
    (∀ a, r = .skipped a → flagsAligned a) ∧
    (∀ a m, r = .added a m → flagsAligned a) := by
  unfold ArFile.indexStep at h
  cases hfo : ar._fileobj with
  | none => rw [hfo] at h; exact Except.noConfusion h
  | some fp0 =>
    rw [hfo] at h
    dsimp only at h
    cases hrd : fpRead fp0 60 with
    | error e => rw [hrd] at h; exact Except.noConfusion h
    | ok pr =>
      obtain ⟨buf, fp1⟩ := pr
      rw [hrd] at h
      dsimp only at h
      cases htl : fpTell fp1 with
      | error e => rw [htl] at h; exact Except.noConfusion h
      | ok off =>
        rw [htl] at h
        dsimp only at h
        cases hfb : ArMember.from_buf buf { ar with _fileobj := some fp1 } off with
        | error e => rw [hfb] at h; exact Except.noConfusion h
        | ok r0 =>
          rw [hfb] at h
          cases r0 with
          | noBuf =>
            dsimp only at h
            simp only [Except.ok.injEq] at h
            subst h
            refine ⟨?_, ?_, ?_⟩
            · intro a ha
              cases ha
              exact hinv
            · intro a ha
              exact StepRes.noConfusion ha
            · intro a m ha
              exact StepRes.noConfusion ha
          | pseudo ar2 =>
            dsimp only at h
            simp only [Except.ok.injEq] at h
            subst h
            obtain ⟨hp1, hp2⟩ := from_buf_pseudo_effects _ _ _ _ hfb
            refine ⟨?_, ?_, ?_⟩
            · intro a ha
              exact StepRes.noConfusion ha
            · intro a ha
              cases ha
              intro x hx y hy
              rw [hp1] at hx hy
              exact hinv x hx y hy
            · intro a m ha
              exact StepRes.noConfusion ha
          | mem m1 ar2 =>
            dsimp only at h
            obtain ⟨he1, he2, he3⟩ := from_buf_mem_effects _ _ _ _ _ hfb
            set arA := (if ar2._endslash = none then { ar2 with _endslash := some m1._endslash } else ar2) with harA
            have hAm : arA.members = ar.members := by
              rw [harA]
              split
              · exact he1
              · exact he1
            cases hh : (arA.members ++ [m1]).head? with
            | none => rw [hh] at h; exact Except.noConfusion h
            | some m0 =>
              rw [hh] at h
              dsimp only at h
              by_cases hflag : m0._endslash ≠ m1._endslash
              · rw [if_pos hflag] at h
                exact Except.noConfusion h
              · rw [if_neg hflag] at h
                push_neg at hflag
                cases hfo2 : arA._fileobj with
                | none => rw [hfo2] at h; exact Except.noConfusion h
                | some fpZ =>
                  rw [hfo2] at h
                  dsimp only at h
                  have hstep : ∀ a m, StepRes.added a m = r → flagsAligned a := by
                    intro a m ha
                    have hmem : a.members = arA.members ++ [m1] := by
                      by_cases hpar : m1.size % 2 = 0
                      · rw [if_pos hpar] at h
                        cases hseek : fpSeek fpZ m1._end 0 with
                        | error e => rw [hseek] at h; exact Except.noConfusion h
                        | ok fpY =>
                          rw [hseek] at h
                          dsimp only at h
                          simp only [Except.ok.injEq] at h
                          rw [← h] at ha
                          cases ha
                          rfl
                      · rw [if_neg hpar] at h
                        cases hseek : fpSeek fpZ (m1._end + 1) 0 with
                        | error e => rw [hseek] at h; exact Except.noConfusion h
                        | ok fpY =>
                          rw [hseek] at h
                          dsimp only at h
                          simp only [Except.ok.injEq] at h
                          rw [← h] at ha
                          cases ha
                          rfl
                    intro x hx y hy
                    rw [hmem] at hx hy
                    refine flagsAligned_append arA.members m1 m0 hh hflag ?_ x hx y hy
                    intro u hu v hv
                    rw [hAm] at hu hv
                    exact hinv u hu v hv
                  refine ⟨fun a ha => ?_, fun a ha => ?_, fun a m ha => hstep a m ha.symm⟩
                  · exfalso
                    by_cases hpar : m1.size % 2 = 0
                    · rw [if_pos hpar] at h
                      cases hseek : fpSeek fpZ m1._end 0 with
                      | error e => rw [hseek] at h; exact Except.noConfusion h
                      | ok fpY =>
                        rw [hseek] at h
                        dsimp only at h
                        simp only [Except.ok.injEq] at h
                        rw [← h] at ha
                        cases ha
                    · rw [if_neg hpar] at h
                      cases hseek : fpSeek fpZ (m1._end + 1) 0 with
                      | error e => rw [hseek] at h; exact Except.noConfusion h
                      | ok fpY =>
                        rw [hseek] at h
                        dsimp only at h
                        simp only [Except.ok.injEq] at h
                        rw [← h] at ha
                        cases ha
                  · exfalso
                    by_cases hpar : m1.size % 2 = 0
                    · rw [if_pos hpar] at h
                      cases hseek : fpSeek fpZ m1._end 0 with
                      | error e => rw [hseek] at h; exact Except.noConfusion h
                      | ok fpY =>
                        rw [hseek] at h
                        dsimp only at h
                        simp only [Except.ok.injEq] at h
                        rw [← h] at ha
                        cases ha
                    · rw [if_neg hpar] at h
                      cases hseek : fpSeek fpZ (m1._end + 1) 0 with
                      | error e => rw [hseek] at h; exact Except.noConfusion h
                      | ok fpY =>
                        rw [hseek] at h
                        dsimp only at h
                        simp only [Except.ok.injEq] at h
                        rw [← h] at ha
                        cases ha

lemma indexLoop_flags : ∀ (fuel : Nat) (ar ar' : ArFile), flagsAligned ar →
    ArFile.indexLoop ar fuel = .ok ar' → flagsAligned ar' := by
  intro fuel
  induction fuel with
  | zero =>
    intro ar ar' hinv h
    simp only [ArFile.indexLoop, Except.ok.injEq] at h
    subst h
    exact hinv
  | succ n ih =>
    intro ar ar' hinv h
    unfold ArFile.indexLoop at h
    cases hst : ArFile.indexStep ar with
    | error e => rw [hst] at h; exact Except.noConfusion h
    | ok r =>
      rw [hst] at h
      obtain ⟨hd, hs, ha⟩ := indexStep_flags ar r hst hinv
      cases r with
      | done a =>
        dsimp only at h
        simp only [Except.ok.injEq] at h
        subst h
        exact hd a rfl
      | skipped a =>
        dsimp only at h
        exact ih a ar' (hs a rfl) h
      | added a m =>
        dsimp only at h
        exact ih a ar' (ha a m rfl) h

/-- C2 amended: all `_endslash` flags of an indexed archive's members are
equal (the mixup check compares each appended member against
`members[0]`), but this holds trivially because `_parse_name` overwrites
every member's flag with the value implied by the archive-wide detected
format — so an archive mixing BSD- and GNU-style raw name fields still
indexes successfully (see the counterexample theorem) instead of failing
at the first inconsistent member. -/
theorem index_members_share_endslash (data : ByteStr) (fl : List Int)
    (h : memberFlags data = .ok fl) :
    ∀ a ∈ fl, ∀ b ∈ fl, a = b := by
  unfold memberFlags at h
  cases hidx : ArFile._index_archive data with
  | error e => rw [hidx] at h; exact Except.noConfusion h
  | ok ar =>
    rw [hidx] at h
    simp only [Except.map, Except.ok.injEq] at h
    subst h
    have hal : flagsAligned ar := by
      unfold ArFile._index_archive at hidx
      dsimp only at hidx
      cases hrd : fpRead { data := data, pos := 0, closed := false } 8 with
      | error e => rw [hrd] at hidx; exact Except.noConfusion hidx
      | ok pr =>
        obtain ⟨hdr, fp1⟩ := pr
        rw [hrd] at hidx
        dsimp only at hidx
        by_cases hg : hdr ≠ GLOBAL_HEADER
        · rw [if_pos hg] at hidx
          exact Except.noConfusion hidx
        · rw [if_neg hg] at hidx
          refine indexLoop_flags _ _ _ ?_ hidx
          intro x hx
          exact absurd hx (List.not_mem_nil x)
    intro a ha b hb
    simp only [List.mem_map] at ha hb
    obtain ⟨x, hx, rfl⟩ := ha
    obtain ⟨y, hy, rfl⟩ := hb
    exact hal x hx y hy

/-- Witness for `index_members_share_endslash` on the concrete
convention-mixing archive: its flag list is `[1, 1]` and the theorem
yields the equality of its entries. -/
theorem index_members_share_endslash_witness :
    memberFlags mixedArchive = .ok [1, 1] ∧ (1 : Int) = 1 :=
  ⟨rfl, index_members_share_endslash mixedArchive [1, 1] rfl 1 (by decide) 1 (by decide)⟩
